import Mathlib

/-!
Verification development for the workhuntrio job-discovery pipeline.

The definitions below are a shallow embedding of the Python sources
`google_discovery.py` and `run_hunter.py`: the URL classifier (regular
expressions decomposed into their literal/`(\w+)`-capture shape), the
paginated search loop, the discovery accumulator, the match scorer, the
SQLite-backed state store, and the processing loop.  Strings are modelled
as `String`/`List Char`, Python ints as `Nat`, floats produced by exact
integer division as `ℚ`, and the database tables as Lean lists with the
relevant SQLite conflict semantics made explicit.
-/

namespace WorkHuntr

/-- ASCII lower-casing of one character, matching Python `str.lower` on the
ASCII range these URLs and skill names use. -/
def lowerChar (c : Char) : Char := c.toLower

/-- Lower-case every character of a list. -/
def lowerList (s : List Char) : List Char := s.map lowerChar

/-- Lower-case a string (Python `str.lower`). -/
def lowerStr (s : String) : String := String.mk (lowerList s.data)

/-- Python `\w` word character on ASCII input: letter, digit or underscore. -/
def wordChar (c : Char) : Bool := c.isAlpha || c.isDigit || c == '_'

/-- `leadsWith needle s`: `needle` is a prefix of `s` (case-sensitive). -/
def leadsWith : List Char → List Char → Bool
  | [], _ => true
  | _ :: _, [] => false
  | a :: ns, b :: ss => a == b && leadsWith ns ss

/-- `leadsWithCI needle s`: `needle` is a prefix of `s`, compared
case-insensitively (re.IGNORECASE literal matching). -/
def leadsWithCI : List Char → List Char → Bool
  | [], _ => true
  | _ :: _, [] => false
  | a :: ns, b :: ss => lowerChar a == lowerChar b && leadsWithCI ns ss

/-- `strContains needle hay`: `needle` occurs as a contiguous substring of
`hay` (Python `needle in hay`). -/
def strContains (needle : List Char) : List Char → Bool
  | [] => needle.isEmpty
  | c :: t => leadsWith needle (c :: t) || strContains needle t

/-- `re.search` for a pattern of shape `LIT(\w+)` under IGNORECASE: find the
leftmost occurrence of `LIT` that is followed by at least one word character;
the capture is the maximal word-character run after `LIT` (greedy `\w+` with
nothing after it).  An occurrence of `LIT` with no word character after it is
skipped and the scan resumes one position further right, as `re.search`
does. -/
def matchLitCap (lit : List Char) : List Char → Option (List Char)
  | [] => none
  | c :: t =>
    if leadsWithCI lit (c :: t) then
      let run := ((c :: t).drop lit.length).takeWhile wordChar
      if run.isEmpty then matchLitCap lit t else some run
    else matchLitCap lit t

/-- Greedy backtracking for a pattern of shape `(\w+)LIT` at one start
position: `runRev` is the reversed word-character run still claimed by the
capture and `rest` is the input after it.  Try the longest capture first;
on failure move the last character of the run onto `rest` and retry, exactly
as the regex engine backtracks a greedy `\w+`. -/
def bestSplit (lit : List Char) : List Char → List Char → Option (List Char)
  | [], _ => none
  | c :: rs, rest =>
    if leadsWithCI lit rest then some ((c :: rs).reverse)
    else bestSplit lit rs (c :: rest)

/-- `re.search` for a pattern of shape `(\w+)LIT` under IGNORECASE: at each
start position whose character is a word character, take the maximal word run
and backtrack it greedily against `LIT`; otherwise advance one position. -/
def matchCapLit (lit : List Char) : List Char → Option (List Char)
  | [] => none
  | c :: t =>
    if wordChar c then
      match bestSplit lit ((c :: t).takeWhile wordChar).reverse
          ((c :: t).drop ((c :: t).takeWhile wordChar).length) with
      | some cap => some cap
      | none => matchCapLit lit t
    else matchCapLit lit t

/-- The shape of every regex in `URLClassifier.ATS_PATTERNS`: a literal
followed by a `(\w+)` capture, or a `(\w+)` capture followed by a literal. -/
inductive Pat where
  | litCap (lit : String)
  | capLit (lit : String)
deriving DecidableEq, Repr

/-- Run one decomposed pattern against a URL, returning the capture. -/
def runPat (p : Pat) (url : List Char) : Option (List Char) :=
  match p with
  | .litCap lit => matchLitCap lit.data url
  | .capLit lit => matchCapLit lit.data url

/-- `URLClassifier.ATS_PATTERNS` in declaration order, each regex decomposed
into its literal and capture parts:
`boards\.greenhouse\.io/(\w+)`, `job-boards\.greenhouse\.io/(\w+)`,
`jobs\.lever\.co/(\w+)`, `apply\.workable\.com/(\w+)`, `(\w+)\.workable\.com`,
`jobs\.ashbyhq\.com/(\w+)`, `(\w+)\.bamboohr\.com/jobs`,
`jobs\.jobvite\.com/(\w+)`, `jobs\.smartrecruiters\.com/(\w+)`,
`wellfound\.com/company/(\w+)`. -/
def ATS_PATTERNS : List (String × List Pat) := [
  ("greenhouse", [.litCap "boards.greenhouse.io/", .litCap "job-boards.greenhouse.io/"]),
  ("lever", [.litCap "jobs.lever.co/"]),
  ("workable", [.litCap "apply.workable.com/", .capLit ".workable.com"]),
  ("ashby", [.litCap "jobs.ashbyhq.com/"]),
  ("bamboohr", [.capLit ".bamboohr.com/jobs"]),
  ("jobvite", [.litCap "jobs.jobvite.com/"]),
  ("smartrecruiters", [.litCap "jobs.smartrecruiters.com/"]),
  ("wellfound", [.litCap "wellfound.com/company/"])]

/-- First matching pattern within one ATS entry (inner loop of
`URLClassifier.classify`). -/
def firstPatMatch : List Pat → List Char → Option (List Char)
  | [], _ => none
  | p :: ps, url =>
    match runPat p url with
    | some cap => some cap
    | none => firstPatMatch ps url

/-- Outer loop of `URLClassifier.classify`: scan the ATS entries in
declaration order, first match wins. -/
def atsSearch : List (String × List Pat) → List Char → Option (String × List Char)
  | [], _ => none
  | (t, ps) :: rest, url =>
    match firstPatMatch ps url with
    | some cap => some (t, cap)
    | none => atsSearch rest url

/-- The ATS type and captured company slug for a URL, if any pattern of
`ATS_PATTERNS` matches; first match in declaration order wins. -/
def atsFirstMatch (url : String) : Option (String × String) :=
  (atsSearch ATS_PATTERNS url.data).map (fun r => (r.1, String.mk r.2))

/-- The delimiter group `(/|$|\?)` of the generic-careers regex at the given
remaining input: a slash, a question mark, end of string, or (Python `$`)
just before a sole trailing newline. -/
def careersDelim : List Char → Bool
  | [] => true
  | c :: rest => c == '/' || c == '?' || (c == '\n' && rest.isEmpty)

/-- One position of `re.search(r'/careers?(/|$|\?)|/jobs?(/|$|\?)', url,
re.IGNORECASE)`: either alternative, with the optional `s` tried greedily
then dropped. -/
def careersAt (s : List Char) : Bool :=
  (leadsWithCI "/careers".data s && careersDelim (s.drop 8)) ||
  (leadsWithCI "/career".data s && careersDelim (s.drop 7)) ||
  (leadsWithCI "/jobs".data s && careersDelim (s.drop 5)) ||
  (leadsWithCI "/job".data s && careersDelim (s.drop 4))

/-- `re.search` of the generic-careers regex over the whole URL string. -/
def careersSearch : List Char → Bool
  | [] => false
  | c :: t => careersAt (c :: t) || careersSearch t

/-- A scheme character per `urllib.parse`: letter, digit, `+`, `-` or `.`. -/
def schemeChar (c : Char) : Bool := c.isAlpha || c.isDigit || c == '+' || c == '-' || c == '.'

/-- Scheme stripping of `urllib.parse.urlsplit`: if the string has a `:`
preceded by a nonempty run starting with an ASCII letter and consisting of
scheme characters only, drop `scheme:`. -/
def dropScheme (s : List Char) : List Char :=
  let pre := s.takeWhile (fun c => !(c == ':'))
  if pre.length < s.length && !pre.isEmpty &&
      (pre.headD ' ').isAlpha && pre.all schemeChar
  then s.drop (pre.length + 1) else s

/-- Fragment stripping of `urlsplit`: keep everything before the first `#`. -/
def dropFragment (s : List Char) : List Char := s.takeWhile (fun c => !(c == '#'))

/-- `urlparse(url).netloc`: strip the scheme, strip the fragment, and if the
remainder starts with `//` take characters up to the next `/`, `?` or `#`;
otherwise the netloc is empty. -/
def netlocOf (url : String) : String :=
  match dropFragment (dropScheme url.data) with
  | '/' :: '/' :: rest =>
      String.mk (rest.takeWhile (fun c => !(c == '/' || c == '?' || c == '#')))
  | _ => ""

/-- Python `str.replace(old, "")` for a nonempty `old = o :: os`: delete
every occurrence, scanning left to right over non-overlapping occurrences.
Structural recursion on a fuel that starts at the input length (each step
consumes at least one character, so the fuel never runs out). -/
def removeAllFuel (o : Char) (os : List Char) : Nat → List Char → List Char
  | _, [] => []
  | 0, l => l
  | fuel + 1, c :: t =>
    if leadsWith (o :: os) (c :: t) then removeAllFuel o os fuel (t.drop os.length)
    else c :: removeAllFuel o os fuel t

/-- Python `str.replace(old, "")` for a nonempty `old = o :: os`. -/
def removeAll (o : Char) (os : List Char) (s : List Char) : List Char :=
  removeAllFuel o os s.length s

/-- The slug derivation of the careers-page branch of `classify`:
`urlparse(url).netloc.replace("www.", "").split(".")[0]` — note that Python
`replace` removes every occurrence of `"www."`, not only a leading one. -/
def careersSlug (url : String) : String :=
  String.mk (((removeAll 'w' "ww.".data (netlocOf url).data)).takeWhile (fun c => !(c == '.')))

/-- The classification record built by `URLClassifier.classify`. -/
structure Classification where
  type : String
  company_slug : Option String
  is_job_board : Bool
  url : String
deriving DecidableEq, Repr

/-- `URLClassifier.classify`: try the ATS patterns in declaration order
(first match wins); otherwise the generic-careers regex over the whole URL;
otherwise "unknown". -/
def classify (url : String) : Classification :=
  match atsFirstMatch url with
  | some (t, slug) => { type := t, company_slug := some slug, is_job_board := true, url := url }
  | none =>
    if careersSearch url.data then
      { type := "careers_page", company_slug := some (careersSlug url),
        is_job_board := false, url := url }
    else
      { type := "unknown", company_slug := none, is_job_board := false, url := url }

/-- A raw search hit as built by the searchers: title, url, snippet,
source. -/
structure Hit where
  title : String
  url : String
  snippet : String
  source : String
deriving DecidableEq, Repr

/-- A hit with its classification attached, as `filter_urls` emits. -/
structure ClassifiedHit where
  hit : Hit
  classification : Classification
deriving DecidableEq, Repr

/-- `URLClassifier.SKIP_DOMAINS`. -/
def SKIP_DOMAINS : List String :=
  ["linkedin.com", "facebook.com", "twitter.com", "instagram.com",
   "youtube.com", "reddit.com", "news.ycombinator.com",
   "glassdoor.com", "indeed.com"]

/-- The non-HTML extension deny-list inlined in `filter_urls`. -/
def SKIP_EXTS : List String := [".pdf", ".doc", ".png", ".jpg"]

/-- `URLClassifier.filter_urls`: drop items whose lower-cased URL contains a
deny-listed domain, then those containing a deny-listed extension, classify
the remainder and keep those not classified "unknown". -/
def filter_urls : List Hit → List ClassifiedHit
  | [] => []
  | it :: rest =>
    if SKIP_DOMAINS.any (fun d => strContains d.data (lowerList it.url.data)) then
      filter_urls rest
    else if SKIP_EXTS.any (fun e => strContains e.data (lowerList it.url.data)) then
      filter_urls rest
    else if (classify it.url).type == "unknown" then
      filter_urls rest
    else
      ⟨it, classify it.url⟩ :: filter_urls rest

/-- The page starts requested by `GoogleCustomSearcher.search_paginated`:
Python `range(1, min(max_results + 1, 101), 10)`, i.e. `1, 11, 21, ...` with
`(min max_results 100 + 9) / 10` elements. -/
def pageStarts (max_results : Nat) : List Nat :=
  (List.range ((min max_results 100 + 9) / 10)).map (fun k => 1 + 10 * k)

/-- The pagination loop body of `search_paginated`: fetch each page in turn,
breaking out of the loop as soon as a page comes back empty. -/
def paginate (pages : Nat → List Hit) : List Nat → List Hit
  | [] => []
  | st :: rest =>
    let r := pages st
    if r.isEmpty then [] else r ++ paginate pages rest

/-- `GoogleCustomSearcher.search_paginated`, with the per-page network call
abstracted as `pages : start ↦ hits`. -/
def search_paginated (pages : Nat → List Hit) (max_results : Nat) : List Hit :=
  paginate pages (pageStarts max_results)

/-- Membership test of the `all_results` dict: some accumulated hit already
has this URL. -/
def hasUrl (acc : List Hit) (u : String) : Bool := acc.any (fun h => h.url == u)

/-- One iteration of the result-merging loop of `JobDiscovery.discover`:
`if url not in all_results: all_results[url] = result` — a Python dict keeps
insertion order, so `values()` is modelled by appending new URLs. -/
def insertHit (acc : List Hit) (h : Hit) : List Hit :=
  if hasUrl acc h.url then acc else acc ++ [h]

/-- Merge one query's result list into the accumulator. -/
def accumulate (acc : List Hit) (results : List Hit) : List Hit :=
  results.foldl insertHit acc

/-- The query loop of `JobDiscovery.discover`, with the searcher call
abstracted as `f`, tracking `i` against `total = len(queries)` and counting
the `time.sleep(delay_between_queries)` calls guarded by
`i < len(queries) - 1`. -/
def discoverGo (f : String → List Hit) (total : Nat) :
    Nat → List String → List Hit → Nat → List Hit × Nat
  | _, [], acc, sleeps => (acc, sleeps)
  | i, q :: qs, acc, sleeps =>
    discoverGo f total (i + 1) qs (accumulate acc (f q))
      (if i < total - 1 then sleeps + 1 else sleeps)

/-- The URL-keyed accumulator `all_results.values()` after all queries. -/
def discoverHits (f : String → List Hit) (queries : List String) : List Hit :=
  (discoverGo f queries.length 0 queries [] 0).1

/-- Number of inter-query sleeps performed by `discover`. -/
def discoverSleeps (f : String → List Hit) (queries : List String) : Nat :=
  (discoverGo f queries.length 0 queries [] 0).2

/-- `JobDiscovery.discover`: run every query, merge by URL (first occurrence
wins), then `filter_urls` over the accumulated values; also reports how many
inter-query sleeps happened. -/
def discover (f : String → List Hit) (queries : List String) :
    List ClassifiedHit × Nat :=
  (filter_urls (discoverHits f queries), discoverSleeps f queries)

/-- Invariant of the URL-keyed accumulator of `discover`: pairwise distinct
urls; the accumulated urls are exactly those of the hits merged so far; and
each entry is the first merged hit carrying its url. -/
def AccInv (flat acc : List Hit) : Prop :=
  List.Pairwise (fun a b => a.url ≠ b.url) acc ∧
  (∀ u, hasUrl acc u = flat.any fun x => x.url == u) ∧
  (∀ h ∈ acc, flat.find? (fun x => x.url == h.url) = some h)

/-- The `master_resume.json` profile (`MasterResume` dataclass).  Only
`skills` is read by the operations embedded here. -/
structure MasterResume where
  name : String
  email : String
  phone : String
  location : String
  summary : String
  experience : List (List (String × String))
  education : List (List (String × String))
  skills : List String
  certifications : List String
deriving DecidableEq, Repr

/-- The keys of the AI-produced analysis dict that `calculate_match` reads.
`remote_type := none` models a dict without that key
(`analysis.get('remote_type')` is `None`). -/
structure Analysis where
  required_skills : List String
  preferred_skills : List String
  remote_type : Option String
deriving DecidableEq, Repr

/-- One skill test of `calculate_match`:
`any(skill.lower() in rs or rs in skill.lower() for rs in resume_skills)`
where `rs` ranges over the already lower-cased profile skills. -/
def skillHit (rs : List String) (skill : String) : Bool :=
  rs.any (fun r =>
    strContains (lowerStr skill).data r.data || strContains r.data (lowerStr skill).data)

/-- One of the two skill loops of `calculate_match`: each skill adds `pts`
to the possible points and, when it matches a profile skill, `pts` to the
earned points. -/
def tallySkills (pts : Nat) (rs : List String) (skills : List String)
    (acc : Nat × Nat) : Nat × Nat :=
  skills.foldl (fun a sk => (a.1 + (if skillHit rs sk then pts else 0), a.2 + pts)) acc

/-- The integer accumulators `(score, max_score)` of `calculate_match` after
its two skill loops and the remote bonus: required skills count 2/2,
preferred skills 1/1, `remote_type == 'fully_remote'` a flat 2/2. -/
def matchPoints (a : Analysis) (resume : MasterResume) : Nat × Nat :=
  let rs := resume.skills.map lowerStr
  let acc1 := tallySkills 2 rs a.required_skills (0, 0)
  let acc2 := tallySkills 1 rs a.preferred_skills acc1
  if a.remote_type == some "fully_remote" then (acc2.1 + 2, acc2.2 + 2) else acc2

/-- `calculate_match`.  `none` models a falsy (empty) analysis dict, which
returns 0.0 at once; otherwise the result is `score / max_score` as exact
division on the accumulated points, or 0.5 when `max_score` is 0. -/
def calculate_match : Option Analysis → MasterResume → ℚ
  | none, _ => 0
  | some a, resume =>
    let acc := matchPoints a resume
    if acc.2 > 0 then (acc.1 : ℚ) / (acc.2 : ℚ) else 1 / 2

/-! ### MD5 (hashlib.md5), used for the derived job id -/

/-- Truncate to 32 bits. -/
def mask32 (n : Nat) : Nat := n % 4294967296

/-- Bitwise complement on 32 bits. -/
def not32 (n : Nat) : Nat := 4294967295 ^^^ n

/-- 32-bit left rotation (input below 2^32). -/
def rotl32 (x s : Nat) : Nat := mask32 (x <<< s) ||| (x >>> (32 - s))

/-- The 64 MD5 sine-derived constants of RFC 1321. -/
def md5K : List Nat :=
  [0xd76aa478, 0xe8c7b756, 0x242070db, 0xc1bdceee,
   0xf57c0faf, 0x4787c62a, 0xa8304613, 0xfd469501,
   0x698098d8, 0x8b44f7af, 0xffff5bb1, 0x895cd7be,
   0x6b901122, 0xfd987193, 0xa679438e, 0x49b40821,
   0xf61e2562, 0xc040b340, 0x265e5a51, 0xe9b6c7aa,
   0xd62f105d, 0x02441453, 0xd8a1e681, 0xe7d3fbc8,
   0x21e1cde6, 0xc33707d6, 0xf4d50d87, 0x455a14ed,
   0xa9e3e905, 0xfcefa3f8, 0x676f02d9, 0x8d2a4c8a,
   0xfffa3942, 0x8771f681, 0x6d9d6122, 0xfde5380c,
   0xa4beea44, 0x4bdecfa9, 0xf6bb4b60, 0xbebfbc70,
   0x289b7ec6, 0xeaa127fa, 0xd4ef3085, 0x04881d05,
   0xd9d4d039, 0xe6db99e5, 0x1fa27cf8, 0xc4ac5665,
   0xf4292244, 0x432aff97, 0xab9423a7, 0xfc93a039,
   0x655b59c3, 0x8f0ccc92, 0xffeff47d, 0x85845dd1,
   0x6fa87e4f, 0xfe2ce6e0, 0xa3014314, 0x4e0811a1,
   0xf7537e82, 0xbd3af235, 0x2ad7d2bb, 0xeb86d391]

/-- The 64 MD5 per-round left-rotation amounts. -/
def md5S : List Nat :=
  [7, 12, 17, 22, 7, 12, 17, 22, 7, 12, 17, 22, 7, 12, 17, 22,
   5, 9, 14, 20, 5, 9, 14, 20, 5, 9, 14, 20, 5, 9, 14, 20,
   4, 11, 16, 23, 4, 11, 16, 23, 4, 11, 16, 23, 4, 11, 16, 23,
   6, 10, 15, 21, 6, 10, 15, 21, 6, 10, 15, 21, 6, 10, 15, 21]

/-- One MD5 round: the nonlinear function, message index schedule and
rotation for round `i` applied to the state `(a, b, c, d)`. -/
def md5Step (M : Nat → Nat) (st : Nat × Nat × Nat × Nat) (i : Nat) :
    Nat × Nat × Nat × Nat :=
  let a := st.1
  let b := st.2.1
  let c := st.2.2.1
  let d := st.2.2.2
  let f :=
    if i < 16 then (b &&& c) ||| (not32 b &&& d)
    else if i < 32 then (d &&& b) ||| (not32 d &&& c)
    else if i < 48 then b ^^^ c ^^^ d
    else c ^^^ (b ||| not32 d)
  let g :=
    if i < 16 then i
    else if i < 32 then (5 * i + 1) % 16
    else if i < 48 then (3 * i + 5) % 16
    else (7 * i) % 16
  let tmp := mask32 (f + a + md5K.getD i 0 + M g)
  (d, mask32 (b + rotl32 tmp (md5S.getD i 0)), b, c)

/-- Process 512-bit block number `blk` of the padded byte list `bs`:
64 rounds, then add the block result into the incoming state. -/
def md5Block (bs : List Nat) (blk : Nat) (st : Nat × Nat × Nat × Nat) :
    Nat × Nat × Nat × Nat :=
  let M := fun g =>
    bs.getD (64 * blk + 4 * g) 0 + 256 * bs.getD (64 * blk + 4 * g + 1) 0 +
    65536 * bs.getD (64 * blk + 4 * g + 2) 0 +
    16777216 * bs.getD (64 * blk + 4 * g + 3) 0
  let r := (List.range 64).foldl (md5Step M) st
  (mask32 (st.1 + r.1), mask32 (st.2.1 + r.2.1),
   mask32 (st.2.2.1 + r.2.2.1), mask32 (st.2.2.2 + r.2.2.2))

/-- UTF-8 encoding of one character (Python `str.encode()`). -/
def utf8Bytes (c : Char) : List Nat :=
  let n := c.toNat
  if n < 128 then [n]
  else if n < 2048 then [192 + n / 64, 128 + n % 64]
  else if n < 65536 then [224 + n / 4096, 128 + (n / 64) % 64, 128 + n % 64]
  else [240 + n / 262144, 128 + (n / 4096) % 64, 128 + (n / 64) % 64, 128 + n % 64]

/-- The UTF-8 byte sequence of a string. -/
def strBytes (s : String) : List Nat := (s.data.map utf8Bytes).flatten

/-- MD5 padding: append `0x80`, zero bytes up to 56 mod 64, then the bit
length modulo 2^64 as eight little-endian bytes. -/
def md5Pad (bs : List Nat) : List Nat :=
  bs ++ [128] ++ List.replicate ((119 - bs.length % 64) % 64) 0 ++
    (List.range 8).map (fun i => ((8 * bs.length) >>> (8 * i)) % 256)

/-- The MD5 initial state. -/
def md5Init : Nat × Nat × Nat × Nat := (0x67452301, 0xefcdab89, 0x98badcfe, 0x10325476)

/-- The MD5 digest state of a byte list. -/
def md5Digest (bs : List Nat) : Nat × Nat × Nat × Nat :=
  let p := md5Pad bs
  (List.range (p.length / 64)).foldl (fun st blk => md5Block p blk st) md5Init

/-- Lower-case hex digit of a value below 16. -/
def hexDigit (n : Nat) : Char := if n < 10 then Char.ofNat (48 + n) else Char.ofNat (87 + n)

/-- Two hex digits of one byte. -/
def byteHex (b : Nat) : List Char := [hexDigit (b / 16), hexDigit (b % 16)]

/-- Hex rendering of one 32-bit word, little-endian byte order as in
`hexdigest`. -/
def wordHexLE (w : Nat) : List Char :=
  byteHex (w % 256) ++ byteHex ((w >>> 8) % 256) ++
  byteHex ((w >>> 16) % 256) ++ byteHex ((w >>> 24) % 256)

/-- `hashlib.md5(s.encode()).hexdigest()`. -/
def md5hex (s : String) : String :=
  let d := md5Digest (strBytes s)
  String.mk (wordHexLE d.1 ++ wordHexLE d.2.1 ++ wordHexLE d.2.2.1 ++ wordHexLE d.2.2.2)

/-- The derived job id of `process_job_url`:
`hashlib.md5(url.encode()).hexdigest()[:12]`. -/
def job_id (url : String) : String := (md5hex url).take 12

/-! ### State store (SQLite tables in run_hunter.py) -/

/-- A row of the `discovered_urls` table (`url` is the primary key;
`classification` holds the `json.dumps` text; `processed` the 0/1 flag). -/
structure DiscRow where
  url : String
  discovered_at : String
  classification : String
  processed : Bool
deriving DecidableEq, Repr

/-- A row of the `jobs` table as written by `save_job` (`id` is the primary
key and `url` carries a UNIQUE constraint; `requirements` and `keywords`
stand for their `json.dumps` serializations; `applied_at`, never written by
`save_job`, is omitted). -/
structure JobRow where
  id : String
  title : String
  company : String
  url : String
  location : String
  description : String
  requirements : List String
  keywords : List String
  discovered_at : String
  match_score : ℚ
  source : String
  status : String
  resume_path : Option String
  cover_letter_path : Option String
deriving DecidableEq, Repr

/-- The `Job` dataclass. -/
structure Job where
  id : String
  title : String
  company : String
  url : String
  location : String
  description : String
  requirements : List String
  keywords : List String
  discovered_at : String
  match_score : ℚ
  source : String
  status : String
deriving DecidableEq, Repr

/-- The SQLite database: the `discovered_urls` and `jobs` tables as ordered
row lists. -/
structure DB where
  discovered : List DiscRow
  jobs : List JobRow
deriving DecidableEq, Repr

/-- `url_seen`: `SELECT 1 FROM discovered_urls WHERE url = ?`. -/
def url_seen (db : DB) (url : String) : Bool :=
  db.discovered.any (fun r => r.url == url)

/-- `save_discovered`: `INSERT OR IGNORE INTO discovered_urls` — a no-op when
a row with this url (the primary key) already exists, otherwise a new row
with `discovered_at = now` (the `datetime.now().isoformat()` at call time)
and the default `processed = 0`. -/
def save_discovered (db : DB) (url : String) (classification : String) (now : String) : DB :=
  if db.discovered.any (fun r => r.url == url) then db
  else { db with discovered := db.discovered ++ [⟨url, now, classification, false⟩] }

/-- `mark_processed`: `UPDATE discovered_urls SET processed = 1 WHERE url = ?`. -/
def mark_processed (db : DB) (url : String) : DB :=
  { db with discovered :=
      db.discovered.map (fun r => if r.url == url then { r with processed := true } else r) }

/-- `save_job`: `INSERT OR REPLACE INTO jobs` — SQLite deletes every row that
conflicts on the primary key `id` or on the UNIQUE column `url`, then inserts
the new row. -/
def save_job (db : DB) (job : Job) (resume_path cover_letter_path : Option String) : DB :=
  { db with jobs :=
      db.jobs.filter (fun r => !(r.id == job.id) && !(r.url == job.url)) ++
      [⟨job.id, job.title, job.company, job.url, job.location, job.description,
        job.requirements, job.keywords, job.discovered_at, job.match_score,
        job.source, job.status, resume_path, cover_letter_path⟩] }

/-- The `processed` flag of the first `discovered_urls` row for a url. -/
def processedFlag (db : DB) (url : String) : Option Bool :=
  (db.discovered.find? (fun r => r.url == url)).map (fun r => r.processed)

/-- The first `discovered_urls` row for a url. -/
def discRow (db : DB) (url : String) : Option DiscRow :=
  db.discovered.find? (fun r => r.url == url)

/-! ### Processing orchestration (run_processing) -/

/-- The externally determined outcome of one `process_job_url` call: it
returns a Job after saving it (success), returns `None` (scrape failure,
title mismatch or low score), or raises an exception. -/
inductive Outcome where
  | success (job : Job) (resume_path cover_letter_path : Option String)
  | rejected
  | raised
deriving Repr

/-- The database effect of one `process_job_url` call: on success the job
row is upserted (the final store write inside `process_job_url`); a
rejection or an exception commits no job row. -/
def processItem (db : DB) (o : Outcome) : DB :=
  match o with
  | .success j rp cp => save_job db j rp cp
  | .rejected => db
  | .raised => db

/-- The per-item loop of `run_processing`: each pulled `(url, outcome)` runs
`process_job_url` inside `try`, any exception is caught and logged by the
`except` clause, and the `finally` clause calls `mark_processed` — so the
mark happens on success, rejection and exception alike, and the loop always
continues with the remaining items.  The returned list is the trace of
`mark_processed` calls in order. -/
def run_processing (db : DB) : List (String × Outcome) → DB × List String
  | [] => (db, [])
  | (url, o) :: rest =>
    let db1 := mark_processed (processItem db o) url
    let r := run_processing db1 rest
    (r.1, url :: r.2)

/-! ### Spec-side definitions for refinement comparison -/

/-- The path component of a URL under the urlsplit model: strip scheme and
fragment; if `//` introduces a netloc, skip it; then keep everything before
the query. -/
def pathOf (url : String) : String :=
  let s := dropFragment (dropScheme url.data)
  let rest :=
    match s with
    | '/' :: '/' :: r => r.dropWhile (fun c => !(c == '/' || c == '?' || c == '#'))
    | _ => s
  String.mk (rest.takeWhile (fun c => !(c == '?')))

/-- Modelled from the spec wording of C8: the URL's *path* contains a
`/career(s)` or `/job(s)` segment. -/
def specPathHasCareers (url : String) : Bool := careersSearch (pathOf url).data

/-- Modelled from the spec wording of C8: strip one *leading* `"www."` from
the URL's host, then take the first dot-separated label. -/
def specHostSlug (url : String) : String :=
  let h := (netlocOf url).data
  let h2 := if leadsWith "www.".data h then h.drop 4 else h
  String.mk (h2.takeWhile (fun c => !(c == '.')))

/-! ## Verification

Helper lemmas first, then one theorem per claim (with witnesses and
counterexamples where required). -/

/-- Every capture of a `LIT(\w+)` pattern is a nonempty run of word
characters. -/
theorem matchLitCap_wordRun (lit : List Char) :
    ∀ s cap, matchLitCap lit s = some cap → cap ≠ [] ∧ cap.all wordChar = true := by
  intro s
  induction s with
  | nil => intro cap h; simp [matchLitCap] at h
  | cons c t ih =>
    intro cap h
    rw [matchLitCap] at h
    dsimp only at h
    split at h
    · split at h
      · exact ih cap h
      · rename_i hne
        cases h
        refine ⟨?_, List.all_takeWhile⟩
        intro hnil
        rw [hnil] at hne
        simp at hne
    · exact ih cap h

/-- `bestSplit` only returns nonempty captures drawn from its run. -/
theorem bestSplit_wordRun (lit : List Char) :
    ∀ runRev rest cap, (∀ c ∈ runRev, wordChar c = true) →
      bestSplit lit runRev rest = some cap → cap ≠ [] ∧ cap.all wordChar = true := by
  intro runRev
  induction runRev with
  | nil => intro rest cap _ h; simp [bestSplit] at h
  | cons c rs ih =>
    intro rest cap hw h
    rw [bestSplit] at h
    split at h
    · cases h
      constructor
      · simp
      · rw [List.all_reverse]
        exact List.all_eq_true.mpr hw
    · exact ih (c :: rest) cap (fun x hx => hw x (List.mem_cons_of_mem c hx)) h

/-- Every capture of a `(\w+)LIT` pattern is a nonempty run of word
characters. -/
theorem matchCapLit_wordRun (lit : List Char) :
    ∀ s cap, matchCapLit lit s = some cap → cap ≠ [] ∧ cap.all wordChar = true := by
  intro s
  induction s with
  | nil => intro cap h; simp [matchCapLit] at h
  | cons c t ih =>
    intro cap h
    rw [matchCapLit] at h
    split at h
    · rename_i hw
      split at h
      · rename_i cap2 hbs
        cases h
        refine bestSplit_wordRun lit _ _ _ ?_ hbs
        intro x hx
        rw [List.mem_reverse] at hx
        have := List.mem_takeWhile_imp hx
        exact this
      · exact ih cap h
    · exact ih cap h

/-- Every capture of a decomposed pattern is a nonempty word-character run. -/
theorem runPat_wordRun (p : Pat) (url : List Char) (cap : List Char)
    (h : runPat p url = some cap) : cap ≠ [] ∧ cap.all wordChar = true := by
  cases p with
  | litCap lit => exact matchLitCap_wordRun lit.data url cap h
  | capLit lit => exact matchCapLit_wordRun lit.data url cap h

/-- `firstPatMatch` captures are nonempty word-character runs. -/
theorem firstPatMatch_wordRun :
    ∀ (ps : List Pat) (url cap : List Char), firstPatMatch ps url = some cap →
      cap ≠ [] ∧ cap.all wordChar = true := by
  intro ps
  induction ps with
  | nil => intro url cap h; simp [firstPatMatch] at h
  | cons p ps ih =>
    intro url cap h
    rw [firstPatMatch] at h
    split at h
    · rename_i cap2 hp
      cases h
      exact runPat_wordRun p url cap hp
    · exact ih url cap h

/-- `atsSearch` captures are nonempty word-character runs. -/
theorem atsSearch_wordRun :
    ∀ (tbl : List (String × List Pat)) (url : List Char) (t : String) (cap : List Char),
      atsSearch tbl url = some (t, cap) → cap ≠ [] ∧ cap.all wordChar = true := by
  intro tbl
  induction tbl with
  | nil => intro url t cap h; simp [atsSearch] at h
  | cons e rest ih =>
    intro url t cap h
    rw [atsSearch] at h
    split at h
    · rename_i cap2 hp
      cases h
      exact firstPatMatch_wordRun e.2 url cap hp
    · exact ih url t cap h

/-- C1: every URL on which the ordered ATS pattern table produces a first
match is classified with that ATS type, the captured slug, and
`is_job_board = true`; the greenhouse example yields type "greenhouse" and
slug "acme"; and a URL matching both the greenhouse and the lever patterns
gets the earlier (greenhouse) classification, showing first-match-wins in
declaration order. -/
theorem classify_ats_first_match_wins (url ty slug : String)
    (h : atsFirstMatch url = some (ty, slug)) :
    classify url = { type := ty, company_slug := some slug, is_job_board := true, url := url } ∧
    classify "https://boards.greenhouse.io/acme/jobs/1" =
      { type := "greenhouse", company_slug := some "acme", is_job_board := true,
        url := "https://boards.greenhouse.io/acme/jobs/1" } ∧
    classify "https://boards.greenhouse.io/acme/jobs.lever.co/beta" =
      { type := "greenhouse", company_slug := some "acme", is_job_board := true,
        url := "https://boards.greenhouse.io/acme/jobs.lever.co/beta" } := by
  refine ⟨?_, by decide, by decide⟩
  simp [classify, h]

/-- Witness for C1 at a concrete lever URL. -/
theorem classify_ats_first_match_wins_witness :
    atsFirstMatch "https://jobs.lever.co/acme/123" = some ("lever", "acme") ∧
    classify "https://jobs.lever.co/acme/123" =
      { type := "lever", company_slug := some "acme", is_job_board := true,
        url := "https://jobs.lever.co/acme/123" } :=
  ⟨by decide,
   (classify_ats_first_match_wins "https://jobs.lever.co/acme/123" "lever" "acme"
     (by decide)).1⟩

/-- C8 counterexample: the URL `https://awww.example.com/about?x=/jobs/`
matches no ATS pattern and its *path* (`/about`) contains no career/job
segment — the spec-side path predicate is false and the spec-side
leading-www slug would be "awww" — yet `classify` returns "careers_page"
(the regex searches the whole URL, hitting the query string) with slug
"aexample" (Python `replace` removes the *interior* "www."). -/
theorem classify_careers_path_counterexample :
    specPathHasCareers "https://awww.example.com/about?x=/jobs/" = false ∧
    specHostSlug "https://awww.example.com/about?x=/jobs/" = "awww" ∧
    atsFirstMatch "https://awww.example.com/about?x=/jobs/" = none ∧
    classify "https://awww.example.com/about?x=/jobs/" =
      { type := "careers_page", company_slug := some "aexample", is_job_board := false,
        url := "https://awww.example.com/about?x=/jobs/" } :=
  ⟨by decide, by decide, by decide, by decide⟩

/-- C8 (amended): for every URL matching no ATS pattern, `classify` returns
"careers_page" iff the generic-careers regex matches anywhere in the whole
URL string (not only the path); in that case the slug is the first label of
the host after removing every occurrence of "www." (not only a leading
one); otherwise the result is "unknown" with no slug. -/
theorem classify_careers_fallback (url : String) (h : atsFirstMatch url = none) :
    ((classify url).type = "careers_page" ↔ careersSearch url.data = true) ∧
    (careersSearch url.data = true →
      classify url = { type := "careers_page", company_slug := some (careersSlug url),
                       is_job_board := false, url := url }) ∧
    (careersSearch url.data = false →
      classify url = { type := "unknown", company_slug := none, is_job_board := false,
                       url := url }) := by
  cases hc : careersSearch url.data with
  | true => simp [classify, h, hc]
  | false => simp [classify, h, hc]

/-- Witness for C8 (amended) at a concrete careers URL. -/
theorem classify_careers_fallback_witness :
    careersSlug "https://example.com/careers" = "example" ∧
    classify "https://example.com/careers" =
      { type := "careers_page",
        company_slug := some (careersSlug "https://example.com/careers"),
        is_job_board := false, url := "https://example.com/careers" } :=
  ⟨by decide, (classify_careers_fallback "https://example.com/careers" (by decide)).2.1
    (by decide)⟩

/-- C10 counterexample: on `https://acme-co.workable.com` the captured slug
is "co" — the *last* word run of the subdomain identifier "acme-co" — not
"acme" as truncation at the first non-word character would give. -/
theorem slug_first_truncation_counterexample :
    (classify "https://acme-co.workable.com").company_slug = some "co" ∧
    (classify "https://acme-co.workable.com").company_slug ≠ some "acme" :=
  ⟨by decide, by decide⟩

/-- C10 (amended): every slug captured by an ATS pattern is a nonempty run
of word characters; for path-style patterns (literal before the capture) an
identifier is truncated at its first non-word character, as in the
greenhouse example "acme-co" ↦ "acme", while for subdomain-style patterns
(capture before the literal) the capture is the last word run before the
literal, as in the workable example "acme-co" ↦ "co". -/
theorem slug_word_char_run (url ty slug : String)
    (h : atsFirstMatch url = some (ty, slug)) :
    (slug.data ≠ [] ∧ slug.data.all wordChar = true) ∧
    (classify "https://boards.greenhouse.io/acme-co/jobs/1").company_slug = some "acme" ∧
    (classify "https://acme-co.workable.com").company_slug = some "co" := by
  refine ⟨?_, by decide, by decide⟩
  unfold atsFirstMatch at h
  cases hs : atsSearch ATS_PATTERNS url.data with
  | none => rw [hs] at h; simp at h
  | some r =>
    rw [hs] at h
    simp only [Option.map_some'] at h
    cases h
    exact atsSearch_wordRun ATS_PATTERNS url.data r.1 r.2 hs

/-- Witness for C10 (amended) at the greenhouse example. -/
theorem slug_word_char_run_witness :
    atsFirstMatch "https://boards.greenhouse.io/acme-co/jobs/1" = some ("greenhouse", "acme") ∧
    ("acme".data ≠ [] ∧ "acme".data.all wordChar = true) :=
  ⟨by decide,
   (slug_word_char_run "https://boards.greenhouse.io/acme-co/jobs/1" "greenhouse" "acme"
     (by decide)).1⟩

/-- Each skill loop step keeps the earned points below the possible
points. -/
theorem tallySkills_le (pts : Nat) (rs : List String) :
    ∀ (sks : List String) (acc : Nat × Nat), acc.1 ≤ acc.2 →
      (tallySkills pts rs sks acc).1 ≤ (tallySkills pts rs sks acc).2 := by
  intro sks
  induction sks with
  | nil => intro acc h; simpa [tallySkills] using h
  | cons sk t ih =>
    intro acc h
    have hstep : tallySkills pts rs (sk :: t) acc =
        tallySkills pts rs t (acc.1 + (if skillHit rs sk then pts else 0), acc.2 + pts) := rfl
    rw [hstep]
    apply ih
    dsimp only
    split <;> omega

/-- The earned points never exceed the possible points. -/
theorem matchPoints_le (a : Analysis) (r : MasterResume) :
    (matchPoints a r).1 ≤ (matchPoints a r).2 := by
  unfold matchPoints
  dsimp only
  have h1 : (tallySkills 2 (r.skills.map lowerStr) a.required_skills (0, 0)).1 ≤
      (tallySkills 2 (r.skills.map lowerStr) a.required_skills (0, 0)).2 :=
    tallySkills_le 2 _ _ (0, 0) (Nat.le_refl 0)
  have h2 : (tallySkills 1 (r.skills.map lowerStr) a.preferred_skills
        (tallySkills 2 (r.skills.map lowerStr) a.required_skills (0, 0))).1 ≤
      (tallySkills 1 (r.skills.map lowerStr) a.preferred_skills
        (tallySkills 2 (r.skills.map lowerStr) a.required_skills (0, 0))).2 :=
    tallySkills_le 1 _ _ _ h1
  split
  · dsimp only
    omega
  · exact h2

/-- C2: the match score is always in [0, 1]; an empty (falsy) analysis
scores 0; the score is earned/possible points as exact division with a 0.5
default when no points are possible; with no skills and a non-fully-remote
type the score is 0.5; and the worked example (required "sql" and "excel",
profile "Advanced SQL" and "Excel", fully remote) scores 1. -/
theorem calculate_match_spec (oa : Option Analysis) (a : Analysis) (r : MasterResume) :
    (0 ≤ calculate_match oa r ∧ calculate_match oa r ≤ 1) ∧
    calculate_match none r = 0 ∧
    (calculate_match (some a) r =
      if (matchPoints a r).2 > 0 then
        ((matchPoints a r).1 : ℚ) / ((matchPoints a r).2 : ℚ)
      else 1 / 2) ∧
    (a.required_skills = [] → a.preferred_skills = [] →
      a.remote_type ≠ some "fully_remote" → calculate_match (some a) r = 1 / 2) ∧
    calculate_match (some ⟨["sql", "excel"], [], some "fully_remote"⟩)
      ⟨"", "", "", "", "", [], [], ["Advanced SQL", "Excel"], []⟩ = 1 := by
  refine ⟨?_, rfl, rfl, ?_, ?_⟩
  · cases oa with
    | none =>
      constructor
      · exact le_refl 0
      · norm_num [calculate_match]
    | some a2 =>
      simp only [calculate_match]
      have hle : ((matchPoints a2 r).1 : ℚ) ≤ ((matchPoints a2 r).2 : ℚ) := by
        exact_mod_cast matchPoints_le a2 r
      constructor
      · split
        · positivity
        · norm_num
      · split
        · rename_i hpos
          have hpos2 : (0 : ℚ) < ((matchPoints a2 r).2 : ℚ) := by exact_mod_cast hpos
          rw [div_le_one hpos2]
          exact hle
        · norm_num
  · intro h1 h2 h3
    have hb : (a.remote_type == some "fully_remote") = false := by
      simp only [beq_eq_false_iff_ne, ne_eq]
      exact h3
    have hmp : matchPoints a r = (0, 0) := by
      simp [matchPoints, h1, h2, tallySkills, hb]
    simp only [calculate_match, hmp]
    norm_num
  · have hmp : matchPoints ⟨["sql", "excel"], [], some "fully_remote"⟩
        ⟨"", "", "", "", "", [], [], ["Advanced SQL", "Excel"], []⟩ = (6, 6) := by decide
    simp only [calculate_match, hmp]
    norm_num

/-- Witness for C2 at a skill-free, non-remote analysis. -/
theorem calculate_match_spec_witness :
    calculate_match (some ⟨[], [], some "unclear"⟩)
      ⟨"", "", "", "", "", [], [], ["x"], []⟩ = 1 / 2 :=
  (calculate_match_spec (some ⟨[], [], some "unclear"⟩) ⟨[], [], some "unclear"⟩
    ⟨"", "", "", "", "", [], [], ["x"], []⟩).2.2.2.1 rfl rfl (by decide)

/-- A `processed = true` flag comes from a found row with the flag set. -/
theorem processedFlag_some (db : DB) (u : String) (h : processedFlag db u = some true) :
    ∃ r, db.discovered.find? (fun x => x.url == u) = some r ∧ r.processed = true := by
  unfold processedFlag at h
  cases hf : db.discovered.find? (fun x => x.url == u) with
  | none => rw [hf] at h; simp at h
  | some r =>
    rw [hf] at h
    simp only [Option.map_some', Option.some.injEq] at h
    exact ⟨r, rfl, h⟩

/-- The per-row update of `mark_processed` never changes a row's url. -/
theorem mark_row_url (r : DiscRow) (v : String) :
    ((if r.url == v then { r with processed := true } else r) : DiscRow).url = r.url := by
  split <;> rfl

/-- The per-row update of `mark_processed` never clears a `processed` flag. -/
theorem mark_row_keeps_true (r : DiscRow) (v : String) (h : r.processed = true) :
    ((if r.url == v then { r with processed := true } else r) : DiscRow).processed = true := by
  split
  · rfl
  · exact h

/-- `save_discovered` never clears a `processed` flag. -/
theorem processedFlag_save_discovered (db : DB) (u v c t : String)
    (h : processedFlag db u = some true) :
    processedFlag (save_discovered db v c t) u = some true := by
  obtain ⟨r, hf, hp⟩ := processedFlag_some db u h
  unfold save_discovered
  split
  · exact h
  · unfold processedFlag
    dsimp only
    rw [List.find?_append, hf]
    simp [hp]

/-- `mark_processed` never clears a `processed` flag (for any url). -/
theorem processedFlag_mark (db : DB) (u v : String)
    (h : processedFlag db u = some true) :
    processedFlag (mark_processed db v) u = some true := by
  obtain ⟨r, hf, hp⟩ := processedFlag_some db u h
  unfold processedFlag mark_processed
  dsimp only
  rw [List.find?_map]
  have hcomp : ((fun x : DiscRow => x.url == u) ∘
      fun r => if r.url == v then { r with processed := true } else r) =
      (fun x : DiscRow => x.url == u) := by
    funext x
    simp only [Function.comp]
    split <;> rfl
  rw [hcomp, hf]
  simp only [Option.map_some', Option.some.injEq]
  exact mark_row_keeps_true r v hp

/-- `save_job` touches only the jobs table, so every `processed` flag is
kept. -/
theorem processedFlag_save_job (db : DB) (u : String) (j : Job) (rp cp : Option String)
    (h : processedFlag db u = some true) :
    processedFlag (save_job db j rp cp) u = some true := h

/-- C3: re-recording a discovered URL is a no-op that keeps the original
record; the first `save_discovered` for an unseen URL creates the row with
that call's timestamp and `processed = 0`; and once `processed = 1` holds,
`save_discovered`, `mark_processed` (for any url) and `save_job` all keep it
at 1. -/
theorem discovered_store_invariants (db : DB) (u c t c2 t2 v : String)
    (j : Job) (rp cp : Option String) :
    save_discovered (save_discovered db u c t) u c2 t2 = save_discovered db u c t ∧
    (db.discovered.any (fun r => r.url == u) = false →
      discRow (save_discovered db u c t) u = some ⟨u, t, c, false⟩) ∧
    (processedFlag db u = some true →
      processedFlag (save_discovered db v c2 t2) u = some true ∧
      processedFlag (mark_processed db v) u = some true ∧
      processedFlag (save_job db j rp cp) u = some true) := by
  refine ⟨?_, ?_, fun hp => ⟨processedFlag_save_discovered db u v c2 t2 hp,
    processedFlag_mark db u v hp, processedFlag_save_job db u j rp cp hp⟩⟩
  · by_cases h : db.discovered.any (fun r => r.url == u) = true
    · simp [save_discovered, h]
    · have h2 : db.discovered.any (fun r => r.url == u) = false := by
        simpa using h
      simp [save_discovered, h2, List.any_append]
  · intro h
    have hn : db.discovered.find? (fun r => r.url == u) = none :=
      List.find?_eq_none.mpr (List.any_eq_false.mp h)
    simp [discRow, save_discovered, h, List.find?_append, hn]

/-- Witness for C3: a URL marked processed stays processed under each store
operation. -/
theorem discovered_store_invariants_witness :
    processedFlag (save_discovered (mark_processed
      (save_discovered ⟨[], []⟩ "u1" "c" "t0") "u1") "v" "c2" "t1") "u1" = some true ∧
    processedFlag (mark_processed (mark_processed
      (save_discovered ⟨[], []⟩ "u1" "c" "t0") "u1") "v") "u1" = some true ∧
    processedFlag (save_job (mark_processed
      (save_discovered ⟨[], []⟩ "u1" "c" "t0") "u1")
      ⟨"", "", "", "", "", "", [], [], "", 0, "", ""⟩ none none) "u1" = some true :=
  (discovered_store_invariants (mark_processed (save_discovered ⟨[], []⟩ "u1" "c" "t0") "u1")
    "u1" "c" "t0" "c2" "t1" "v" ⟨"", "", "", "", "", "", [], [], "", 0, "", ""⟩
    none none).2.2 (by decide)

/-- `processItem` touches only the jobs table. -/
theorem processedFlag_processItem (db : DB) (o : Outcome) (u : String) :
    processedFlag (processItem db o) u = processedFlag db u := by
  cases o <;> rfl

/-- `processItem` keeps url visibility. -/
theorem url_seen_processItem (db : DB) (o : Outcome) (u : String) :
    url_seen (processItem db o) u = url_seen db u := by
  cases o <;> rfl

/-- `mark_processed` keeps url visibility. -/
theorem url_seen_mark (db : DB) (v u : String) :
    url_seen (mark_processed db v) u = url_seen db u := by
  unfold url_seen mark_processed
  dsimp only
  rw [List.any_map]
  congr 1
  funext x
  simp only [Function.comp]
  split <;> rfl

/-- Marking a present url sets its `processed` flag. -/
theorem mark_sets_processed (db : DB) (u : String) (h : url_seen db u = true) :
    processedFlag (mark_processed db u) u = some true := by
  have hex : ∃ x, x ∈ db.discovered ∧ (fun r : DiscRow => r.url == u) x = true := by
    simpa [url_seen, List.any_eq_true] using h
  have hsome : (db.discovered.find? (fun r => r.url == u)).isSome := by
    rw [List.find?_isSome]
    obtain ⟨x, hx, hpx⟩ := hex
    exact ⟨x, hx, hpx⟩
  obtain ⟨r, hf⟩ := Option.isSome_iff_exists.mp hsome
  have hru := List.find?_some hf
  have hru2 : (r.url == u) = true := by simpa using hru
  unfold processedFlag mark_processed
  dsimp only
  rw [List.find?_map]
  have hcomp : ((fun x : DiscRow => x.url == u) ∘
      fun r => if r.url == u then { r with processed := true } else r) =
      (fun x : DiscRow => x.url == u) := by
    funext x
    simp only [Function.comp]
    split <;> rfl
  rw [hcomp, hf]
  simp only [Option.map_some', Option.some.injEq]
  rw [hru2]
  rfl

/-- Every `processed = true` flag survives a whole processing run. -/
theorem run_preserves_processed (items : List (String × Outcome)) :
    ∀ (db : DB) (u : String), processedFlag db u = some true →
      processedFlag (run_processing db items).1 u = some true := by
  induction items with
  | nil => intro db u h; exact h
  | cons it rest ih =>
    intro db u h
    obtain ⟨url, o⟩ := it
    have h1 : processedFlag (mark_processed (processItem db o) url) u = some true := by
      apply processedFlag_mark
      rw [processedFlag_processItem]
      exact h
    exact ih (mark_processed (processItem db o) url) u h1

/-- The per-item loop marks every pulled url, in order, once each,
whatever the outcomes. -/
theorem run_marks_all (items : List (String × Outcome)) :
    ∀ db : DB,
      (run_processing db items).2 = items.map Prod.fst ∧
      (∀ u, u ∈ items.map Prod.fst → url_seen db u = true →
        processedFlag (run_processing db items).1 u = some true) := by
  induction items with
  | nil => intro db; exact ⟨rfl, fun u hu => absurd hu (by simp)⟩
  | cons it rest ih =>
    intro db
    obtain ⟨url, o⟩ := it
    constructor
    · show url :: (run_processing (mark_processed (processItem db o) url) rest).2 = _
      rw [(ih (mark_processed (processItem db o) url)).1]
      rfl
    · intro u hu hseen
      rcases List.mem_cons.mp hu with hequ | hmem
      · subst hequ
        have hm : processedFlag (mark_processed (processItem db o) u) u = some true := by
          apply mark_sets_processed
          rw [url_seen_processItem]
          exact hseen
        exact run_preserves_processed rest _ u hm
      · have hseen2 : url_seen (mark_processed (processItem db o) url) u = true := by
          rw [url_seen_mark, url_seen_processItem]
          exact hseen
        exact (ih (mark_processed (processItem db o) url)).2 u hmem hseen2

/-- C4: `run_processing` marks each pulled URL processed exactly once, in
order — the trace of `mark_processed` calls is exactly the pulled URL list,
whether each item succeeds, is rejected, or raises — and every pulled URL
present in the store ends with `processed = 1`; an exception on one item
never prevents the marking of the remaining items. -/
theorem run_processing_marks_every_url (db : DB) (items : List (String × Outcome)) :
    (run_processing db items).2 = items.map Prod.fst ∧
    (∀ u, u ∈ items.map Prod.fst → url_seen db u = true →
      processedFlag (run_processing db items).1 u = some true) :=
  run_marks_all items db

/-- Witness for C4: a batch whose first item raises still marks both its
URLs. -/
theorem run_processing_marks_every_url_witness :
    (run_processing ⟨[⟨"u1", "t", "c", false⟩, ⟨"u2", "t", "c", false⟩], []⟩
      [("u1", .raised), ("u2", .rejected)]).2 = ["u1", "u2"] ∧
    processedFlag (run_processing ⟨[⟨"u1", "t", "c", false⟩, ⟨"u2", "t", "c", false⟩], []⟩
      [("u1", .raised), ("u2", .rejected)]).1 "u2" = some true :=
  ⟨(run_processing_marks_every_url ⟨[⟨"u1", "t", "c", false⟩, ⟨"u2", "t", "c", false⟩], []⟩
      [("u1", .raised), ("u2", .rejected)]).1,
   (run_processing_marks_every_url ⟨[⟨"u1", "t", "c", false⟩, ⟨"u2", "t", "c", false⟩], []⟩
      [("u1", .raised), ("u2", .rejected)]).2 "u2" (by decide) (by decide)⟩

/-- Rows surviving the conflict deletion of `save_job` never carry the
deleted id. -/
theorem save_job_filter_id (l : List JobRow) (i u : String) :
    ((l.filter fun r => !(r.id == i) && !(r.url == u)).filter
      fun r => r.id == i) = [] := by
  rw [List.filter_filter, List.filter_eq_nil_iff]
  intro a _
  cases h : a.id == i <;> simp [h]

/-- Rows surviving the conflict deletion of `save_job` never carry the
deleted url. -/
theorem save_job_filter_url (l : List JobRow) (i u : String) :
    ((l.filter fun r => !(r.id == i) && !(r.url == u)).filter
      fun r => r.url == u) = [] := by
  rw [List.filter_filter, List.filter_eq_nil_iff]
  intro a _
  cases h : a.url == u <;> simp [h]

/-- C7: the job id is `job_id url`, a function of the url alone, so two
`save_job` calls whose Jobs share a url (and hence an id) leave exactly one
row under that id — and exactly one row under that url — holding the second
call's values. -/
theorem save_job_upsert_by_url (db : DB)
    (u t1 c1 l1 d1 da1 s1 st1 t2 c2 l2 d2 da2 s2 st2 : String)
    (rq1 kw1 rq2 kw2 : List String) (ms1 ms2 : ℚ) (rp1 cp1 rp2 cp2 : Option String) :
    ((save_job (save_job db ⟨job_id u, t1, c1, u, l1, d1, rq1, kw1, da1, ms1, s1, st1⟩ rp1 cp1)
        ⟨job_id u, t2, c2, u, l2, d2, rq2, kw2, da2, ms2, s2, st2⟩ rp2 cp2).jobs.filter
      fun r => r.id == job_id u) =
      [⟨job_id u, t2, c2, u, l2, d2, rq2, kw2, da2, ms2, s2, st2, rp2, cp2⟩] ∧
    ((save_job (save_job db ⟨job_id u, t1, c1, u, l1, d1, rq1, kw1, da1, ms1, s1, st1⟩ rp1 cp1)
        ⟨job_id u, t2, c2, u, l2, d2, rq2, kw2, da2, ms2, s2, st2⟩ rp2 cp2).jobs.filter
      fun r => r.url == u) =
      [⟨job_id u, t2, c2, u, l2, d2, rq2, kw2, da2, ms2, s2, st2, rp2, cp2⟩] := by
  constructor
  · simp only [save_job]
    generalize job_id u = i
    rw [List.filter_append, save_job_filter_id, List.nil_append]
    simp only [List.filter_cons_of_pos, List.filter_nil, beq_self_eq_true]
  · simp only [save_job]
    generalize job_id u = i
    rw [List.filter_append, save_job_filter_url, List.nil_append]
    simp only [List.filter_cons_of_pos, List.filter_nil, beq_self_eq_true]

/-- `filter_urls` equals a deny-list filter followed by classification: an
item survives exactly when its lower-cased URL contains no deny-listed
domain, no deny-listed extension, and classifies to a type other than
"unknown". -/
theorem filter_urls_eq (items : List Hit) :
    filter_urls items =
      (items.filter fun it =>
        !(SKIP_DOMAINS.any fun d => strContains d.data (lowerList it.url.data)) &&
        (!(SKIP_EXTS.any fun e => strContains e.data (lowerList it.url.data)) &&
         !((classify it.url).type == "unknown"))).map
        fun it => ⟨it, classify it.url⟩ := by
  induction items with
  | nil => rfl
  | cons it rest ih =>
    rw [filter_urls, List.filter_cons]
    cases h1 : SKIP_DOMAINS.any fun d => strContains d.data (lowerList it.url.data) with
    | true => simp [h1, ih]
    | false =>
      cases h2 : SKIP_EXTS.any fun e => strContains e.data (lowerList it.url.data) with
      | true => simp [h1, h2, ih]
      | false =>
        cases h3 : (classify it.url).type == "unknown" with
        | true => simp [h1, h2, h3, ih]
        | false => simp [h1, h2, h3, ih]

/-- C6: `filter_urls` drops every item whose URL contains (case-insensitively)
a deny-listed domain or extension substring before classification, keeps
exactly the remaining items whose classification is not "unknown", and the
deny-list wins even for URLs an ATS pattern or the careers pattern would
match: a greenhouse URL mentioning linkedin.com and a careers URL ending in
.pdf are both dropped. -/
theorem filter_urls_denylist_first (items : List Hit) :
    filter_urls items =
      (items.filter fun it =>
        !(SKIP_DOMAINS.any fun d => strContains d.data (lowerList it.url.data)) &&
        (!(SKIP_EXTS.any fun e => strContains e.data (lowerList it.url.data)) &&
         !((classify it.url).type == "unknown"))).map
        (fun it => ⟨it, classify it.url⟩) ∧
    filter_urls [⟨"t", "https://boards.greenhouse.io/acme?ref=linkedin.com", "s", "g"⟩] = [] ∧
    (classify "https://boards.greenhouse.io/acme?ref=linkedin.com").type = "greenhouse" ∧
    filter_urls [⟨"t", "https://example.com/careers/post.pdf", "s", "g"⟩] = [] ∧
    (classify "https://example.com/careers/post.pdf").type = "careers_page" :=
  ⟨filter_urls_eq items, by decide, by decide, by decide, by decide⟩

/-- C9 counterexample: with every page returning a full 10 hits a
`max_results` of 15 yields 20 hits, exceeding `max_results`. -/
theorem search_paginated_over_max_counterexample :
    (search_paginated (fun _ => List.replicate 10 (⟨"t", "u", "s", "g"⟩ : Hit)) 15).length = 20 ∧
    ¬ ((search_paginated (fun _ => List.replicate 10 (⟨"t", "u", "s", "g"⟩ : Hit)) 15).length
        ≤ 15) :=
  ⟨by decide, by decide⟩

/-- The pagination loop returns exactly the pages before the first empty
one. -/
theorem paginate_takeWhile (pages : Nat → List Hit) :
    ∀ l : List Nat, paginate pages l =
      ((l.takeWhile fun st => !(pages st).isEmpty).map pages).flatten := by
  intro l
  induction l with
  | nil => rfl
  | cons st rest ih =>
    rw [paginate, List.takeWhile_cons]
    cases h : (pages st).isEmpty with
    | true => simp [h]
    | false => simp [h, ih]

/-- When every page holds at most 10 hits, a page list yields at most ten
hits per page. -/
theorem flatten_pages_le (pages : Nat → List Hit) (hb : ∀ st, (pages st).length ≤ 10) :
    ∀ l : List Nat, ((l.map pages).flatten).length ≤ 10 * l.length := by
  intro l
  induction l with
  | nil => simp
  | cons st rest ih =>
    simp only [List.map_cons, List.flatten_cons, List.length_append, List.length_cons]
    have := hb st
    omega

/-- C9 (amended): `search_paginated` stops at the first empty page —
returning exactly the concatenation of the pages before it — and fetches at
most `⌈min(max_results, 100) / 10⌉` pages, so with at most 10 hits per page
(the per-request cap) it returns at most `10 * ((min max_results 100 + 9) / 10)`
hits; this can exceed `max_results` when it is not a multiple of 10. -/
theorem search_paginated_stops_on_empty (pages : Nat → List Hit) (mr : Nat)
    (hb : ∀ st, (pages st).length ≤ 10) :
    search_paginated pages mr =
      (((pageStarts mr).takeWhile fun st => !(pages st).isEmpty).map pages).flatten ∧
    (search_paginated pages mr).length ≤ 10 * ((min mr 100 + 9) / 10) := by
  refine ⟨paginate_takeWhile pages (pageStarts mr), ?_⟩
  unfold search_paginated
  rw [paginate_takeWhile pages (pageStarts mr)]
  calc (((pageStarts mr).takeWhile fun st => !(pages st).isEmpty).map pages).flatten.length
      ≤ 10 * ((pageStarts mr).takeWhile fun st => !(pages st).isEmpty).length :=
        flatten_pages_le pages hb _
    _ ≤ 10 * (pageStarts mr).length := by
        have hsub : List.Sublist
            (List.takeWhile (fun st => !(pages st).isEmpty) (pageStarts mr))
            (pageStarts mr) := List.takeWhile_sublist _
        have := hsub.length_le
        omega
    _ = 10 * ((min mr 100 + 9) / 10) := by
        simp [pageStarts, List.length_map, List.length_range]

/-- Witness for C9 (amended) with constant full pages and max_results 15. -/
theorem search_paginated_stops_on_empty_witness :
    (search_paginated (fun _ => List.replicate 10 (⟨"t", "u", "s", "g"⟩ : Hit)) 15).length ≤
      10 * ((min 15 100 + 9) / 10) :=
  (search_paginated_stops_on_empty (fun _ => List.replicate 10 (⟨"t", "u", "s", "g"⟩ : Hit))
    15 (fun st => by simp)).2

/-- Inserting a hit extends the accumulated url set by its url. -/
theorem hasUrl_insertHit (acc : List Hit) (h : Hit) (u : String) :
    hasUrl (insertHit acc h) u = (hasUrl acc u || h.url == u) := by
  unfold insertHit
  split
  · rename_i hh
    cases hu : h.url == u with
    | false => simp
    | true =>
      have he : h.url = u := by simpa using hu
      rw [← he, hh]
      simp
  · simp [hasUrl, List.any_append]

/-- A member of `insertHit acc h` is either old or the newly appended hit
with a fresh url. -/
theorem mem_insertHit {acc : List Hit} {h x : Hit} (hx : x ∈ insertHit acc h) :
    x ∈ acc ∨ (x = h ∧ hasUrl acc h.url = false) := by
  unfold insertHit at hx
  split at hx
  · exact .inl hx
  · rename_i hh
    rcases List.mem_append.mp hx with h1 | h2
    · exact .inl h1
    · have hx2 : x = h := by simpa using h2
      exact .inr ⟨hx2, by simpa using hh⟩

/-- Inserting preserves pairwise-distinct urls. -/
theorem pairwise_insertHit {acc : List Hit} {h : Hit}
    (hp : List.Pairwise (fun a b => a.url ≠ b.url) acc) :
    List.Pairwise (fun a b => a.url ≠ b.url) (insertHit acc h) := by
  unfold insertHit
  split
  · exact hp
  · rename_i hh
    rw [List.pairwise_append]
    refine ⟨hp, List.pairwise_singleton _ _, ?_⟩
    intro a ha b hb
    have hb2 : b = h := by simpa using hb
    subst hb2
    intro he
    have habs : hasUrl acc b.url = true := by
      unfold hasUrl
      rw [List.any_eq_true]
      exact ⟨a, ha, by simp [he]⟩
    simp [habs] at hh

/-- One merge step preserves the accumulator invariant. -/
theorem accInv_insert {flat acc : List Hit} (r : Hit) (hI : AccInv flat acc) :
    AccInv (flat ++ [r]) (insertHit acc r) := by
  obtain ⟨hp, hu, hf⟩ := hI
  refine ⟨pairwise_insertHit hp, ?_, ?_⟩
  · intro u
    rw [hasUrl_insertHit, hu u, List.any_append]
    simp
  · intro h hmem
    rcases mem_insertHit hmem with hacc | ⟨hxr, hnew⟩
    · rw [List.find?_append, hf h hacc]
      rfl
    · subst hxr
      have hnone : flat.find? (fun x => x.url == h.url) = none := by
        rw [List.find?_eq_none]
        intro x hx hpx
        have hany : flat.any (fun x => x.url == h.url) = true :=
          List.any_eq_true.mpr ⟨x, hx, hpx⟩
        rw [← hu h.url] at hany
        rw [hany] at hnew
        cases hnew
      rw [List.find?_append, hnone]
      simp

/-- Merging a whole result list preserves the accumulator invariant. -/
theorem accInv_accumulate : ∀ (rs flat acc : List Hit), AccInv flat acc →
    AccInv (flat ++ rs) (accumulate acc rs) := by
  intro rs
  induction rs with
  | nil => intro flat acc h; simpa [accumulate] using h
  | cons r rest ih =>
    intro flat acc h
    have h2 := ih (flat ++ [r]) (insertHit acc r) (accInv_insert r h)
    have heq : flat ++ r :: rest = (flat ++ [r]) ++ rest := by simp
    rw [heq]
    exact h2

/-- The empty accumulator satisfies the invariant for no merged hits. -/
theorem accInv_base : AccInv [] [] :=
  ⟨List.Pairwise.nil, fun _ => rfl, by intro h hm; cases hm⟩

/-- The query loop preserves the accumulator invariant across the flattened
per-query results. -/
theorem discoverGo_acc (f : String → List Hit) (total : Nat) :
    ∀ (qs : List String) (i : Nat) (acc : List Hit) (s : Nat) (flat : List Hit),
      AccInv flat acc →
      AccInv (flat ++ qs.flatMap f) (discoverGo f total i qs acc s).1 := by
  intro qs
  induction qs with
  | nil => intro i acc s flat h; simpa using h
  | cons q rest ih =>
    intro i acc s flat h
    have h2 := ih (i + 1) (accumulate acc (f q)) (if i < total - 1 then s + 1 else s)
      (flat ++ f q) (accInv_accumulate (f q) flat acc h)
    have heq : flat ++ (q :: rest).flatMap f = (flat ++ f q) ++ rest.flatMap f := by
      simp [List.flatMap_cons]
    rw [heq]
    exact h2

/-- The query loop sleeps once per iteration except the last. -/
theorem discoverGo_sleeps (f : String → List Hit) (total : Nat) :
    ∀ (qs : List String) (i : Nat) (acc : List Hit) (s : Nat),
      i + qs.length = total →
      (discoverGo f total i qs acc s).2 = s + (total - 1 - i) := by
  intro qs
  induction qs with
  | nil =>
    intro i acc s h
    show s = s + (total - 1 - i)
    simp at h
    omega
  | cons q rest ih =>
    intro i acc s h
    have h2 : (i + 1) + rest.length = total := by
      simp at h
      omega
    show (discoverGo f total (i + 1) rest (accumulate acc (f q))
      (if i < total - 1 then s + 1 else s)).2 = s + (total - 1 - i)
    rw [ih (i + 1) _ _ h2]
    simp at h
    by_cases hlt : i < total - 1
    · rw [if_pos hlt]
      omega
    · rw [if_neg hlt]
      omega

/-- Every emitted classified hit comes from an input hit. -/
theorem filter_urls_mem {l : List Hit} {ch : ClassifiedHit} (h : ch ∈ filter_urls l) :
    ch.hit ∈ l := by
  induction l with
  | nil => cases h
  | cons it rest ih =>
    rw [filter_urls] at h
    split at h
    · exact .tail _ (ih h)
    · split at h
      · exact .tail _ (ih h)
      · split at h
        · exact .tail _ (ih h)
        · rcases List.mem_cons.mp h with hh | hm
          · subst hh
            exact List.mem_cons_self _ _
          · exact .tail _ (ih hm)

/-- `filter_urls` keeps urls pairwise distinct. -/
theorem filter_urls_pairwise {l : List Hit}
    (hp : List.Pairwise (fun a b => a.url ≠ b.url) l) :
    List.Pairwise (fun a b : ClassifiedHit => a.hit.url ≠ b.hit.url) (filter_urls l) := by
  rw [filter_urls_eq]
  exact List.Pairwise.map _ (fun a b hab => hab) (List.Pairwise.filter _ hp)

/-- C5: across a whole `discover` run the accumulator holds each URL at most
once; each accumulated hit — and hence each returned classified candidate —
is the *first* hit with its URL in query order (so an overlap between two
queries keeps the earlier title/snippet and drops the later duplicate); and
the inter-query sleep runs exactly `len(queries) - 1` times, i.e. between
consecutive queries but not after the last. -/
theorem discover_first_occurrence_wins (f : String → List Hit) (queries : List String) :
    List.Pairwise (fun a b => a.url ≠ b.url) (discoverHits f queries) ∧
    (∀ h ∈ discoverHits f queries,
      (queries.flatMap f).find? (fun x => x.url == h.url) = some h) ∧
    List.Pairwise (fun a b : ClassifiedHit => a.hit.url ≠ b.hit.url) (discover f queries).1 ∧
    (∀ ch ∈ (discover f queries).1,
      (queries.flatMap f).find? (fun x => x.url == ch.hit.url) = some ch.hit) ∧
    (discover f queries).2 = queries.length - 1 := by
  have hI := discoverGo_acc f queries.length queries 0 [] 0 [] accInv_base
  rw [List.nil_append] at hI
  obtain ⟨hp, hu, hf⟩ := hI
  refine ⟨hp, hf, filter_urls_pairwise hp, ?_, ?_⟩
  · intro ch hch
    exact hf ch.hit (filter_urls_mem hch)
  · show discoverSleeps f queries = _
    unfold discoverSleeps
    rw [discoverGo_sleeps f queries.length queries 0 [] 0 (by simp)]
    omega

/-- Witness for C5: two queries overlapping on one greenhouse URL keep the
first query's title/snippet, and one inter-query sleep happens. -/
theorem discover_first_occurrence_wins_witness :
    ((["q1", "q2"].flatMap fun q =>
      if q = "q1"
      then [⟨"T1", "https://boards.greenhouse.io/acme/jobs/1", "S1", "g"⟩]
      else [⟨"T2", "https://boards.greenhouse.io/acme/jobs/1", "S2", "g"⟩,
            (⟨"T3", "https://jobs.lever.co/beta/1", "S3", "g"⟩ : Hit)]).find?
        fun x => x.url == "https://boards.greenhouse.io/acme/jobs/1") =
      some ⟨"T1", "https://boards.greenhouse.io/acme/jobs/1", "S1", "g"⟩ ∧
    (discover (fun q =>
      if q = "q1"
      then [⟨"T1", "https://boards.greenhouse.io/acme/jobs/1", "S1", "g"⟩]
      else [⟨"T2", "https://boards.greenhouse.io/acme/jobs/1", "S2", "g"⟩,
            (⟨"T3", "https://jobs.lever.co/beta/1", "S3", "g"⟩ : Hit)]) ["q1", "q2"]).2 = 1 :=
  ⟨(discover_first_occurrence_wins (fun q =>
      if q = "q1"
      then [⟨"T1", "https://boards.greenhouse.io/acme/jobs/1", "S1", "g"⟩]
      else [⟨"T2", "https://boards.greenhouse.io/acme/jobs/1", "S2", "g"⟩,
            (⟨"T3", "https://jobs.lever.co/beta/1", "S3", "g"⟩ : Hit)]) ["q1", "q2"]).2.1
      ⟨"T1", "https://boards.greenhouse.io/acme/jobs/1", "S1", "g"⟩ (by decide),
   (discover_first_occurrence_wins (fun q =>
      if q = "q1"
      then [⟨"T1", "https://boards.greenhouse.io/acme/jobs/1", "S1", "g"⟩]
      else [⟨"T2", "https://boards.greenhouse.io/acme/jobs/1", "S2", "g"⟩,
            (⟨"T3", "https://jobs.lever.co/beta/1", "S3", "g"⟩ : Hit)]) ["q1", "q2"]).2.2.2.2⟩

end WorkHuntr
